import Mathlib

/-!
# direwolf: request assembly (`request.go`)

A shallow embedding of `prepareRequest` and of the request-assembly part of
`send`, together with the pieces of the Go standard library they call
(`url.Values.Encode`, `http.Header.Add`, `http.NewRequest`,
`(*http.Request).AddCookie`).

Conventions.
* A Go `string` is a Lean `String`; where Go works on bytes the model works on the
  UTF-8 bytes of the string (`utf8Bytes`).
* A Go map value is `Option (List (String × V))`: `none` is the nil map, and
  `some es` lists the entries in the order in which `range` visits them in the
  run being described.  Keys of a map read from the caller are pairwise distinct.
* A Go slice that may be nil is an `Option (List _)`.
* A run-time panic is an `Except.error`.
-/

namespace Direwolf

/-! ## Go maps and strings -/

/-- A Go map with string keys: `none` is the nil map. -/
abbrev GoMap (V : Type) := Option (List (String × V))

/-- The entries visited by `for k, v := range m`; ranging over a nil map visits nothing. -/
def GoMap.entries {V : Type} (m : GoMap V) : List (String × V) :=
  m.getD []

/-- The Go expression `m[k]` for a map of slices: the zero value (nil slice) when `k` is absent
or the map is nil. -/
def GoMap.index (m : GoMap (List String)) (k : String) : List String :=
  (m.entries.lookup k).getD []

/-- The UTF-8 encoding of one code point, as byte values. -/
def utf8EncodeNat (n : Nat) : List Nat :=
  if n < 0x80 then [n]
  else if n < 0x800 then [0xC0 + n / 64, 0x80 + n % 64]
  else if n < 0x10000 then [0xE0 + n / 4096, 0x80 + n / 64 % 64, 0x80 + n % 64]
  else [0xF0 + n / 262144, 0x80 + n / 4096 % 64, 0x80 + n / 64 % 64, 0x80 + n % 64]

/-- The bytes of a Go string. -/
def utf8Bytes (s : String) : List Nat :=
  s.data.flatMap (fun c => utf8EncodeNat c.toNat)

/-- Go `a < b` on strings: lexicographic order on bytes. -/
def bytesLess : List Nat → List Nat → Bool
  | [], [] => false
  | [], _ :: _ => true
  | _ :: _, [] => false
  | x :: xs, y :: ys => if x < y then true else if y < x then false else bytesLess xs ys

/-- Insert a key into a list sorted by `bytesLess`. -/
def insertKey (k : String) : List String → List String
  | [] => [k]
  | x :: xs => if bytesLess (utf8Bytes k) (utf8Bytes x) then k :: x :: xs else x :: insertKey k xs

/-- Go `sort.Strings`. -/
def sortStrings (ks : List String) : List String :=
  ks.foldr insertKey []

/-! ## `net/url`: `QueryEscape` and `Values.Encode` -/

/-- Go `shouldEscape(c, encodeQueryComponent)`: only ASCII letters, digits and `-_.~` pass. -/
def shouldEscape (c : Nat) : Bool :=
  !((97 ≤ c && c ≤ 122) || (65 ≤ c && c ≤ 90) || (48 ≤ c && c ≤ 57) ||
    c == 45 || c == 95 || c == 46 || c == 126)

/-- The digit `"0123456789ABCDEF"[n]`. -/
def upperhex (n : Nat) : Char :=
  if n < 10 then Char.ofNat (48 + n) else Char.ofNat (55 + n)

/-- One byte of `escape(s, encodeQueryComponent)`. -/
def escapeByte (c : Nat) : List Char :=
  if shouldEscape c then
    if c = 32 then [Char.ofNat 43] else [Char.ofNat 37, upperhex (c / 16), upperhex (c % 16)]
  else [Char.ofNat c]

/-- Go `url.QueryEscape`. -/
def QueryEscape (s : String) : String :=
  String.mk ((utf8Bytes s).flatMap escapeByte)

/-- Join the `key=value` pieces with `&`, as the `buf.Len() > 0` test of `Encode` does. -/
def joinAmp : List String → String
  | [] => ""
  | [p] => p
  | p :: q :: ps => p ++ "&" ++ joinAmp (q :: ps)

/-- Go `url.Values.Encode`: keys sorted, each value of a key written as `key=value`. -/
def Values.Encode (v : GoMap (List String)) : String :=
  joinAmp ((sortStrings (v.entries.map Prod.fst)).flatMap
    (fun k => (GoMap.index v k).map (fun x => QueryEscape k ++ "=" ++ QueryEscape x)))

/-! ## `net/textproto`, `net/http`: header keys and header maps -/

/-- The token characters of `httpguts.isTokenTable`, used by `validHeaderFieldByte` and
`validMethod`. -/
def isToken (c : Nat) : Bool :=
  c == 33 || (35 ≤ c && c ≤ 39) || c == 42 || c == 43 || c == 45 || c == 46 ||
  (48 ≤ c && c ≤ 57) || (65 ≤ c && c ≤ 90) || (94 ≤ c && c ≤ 122) || c == 124 || c == 126

/-- The case loop of `canonicalMIMEHeaderKey`: upper case at the start and after each dash,
lower case elsewhere. -/
def canonCase : Bool → List Char → List Char
  | _, [] => []
  | upper, c :: cs =>
    let n := c.toNat
    let n1 := if upper && 97 ≤ n && n ≤ 122 then n - 32
              else if !upper && 65 ≤ n && n ≤ 90 then n + 32 else n
    Char.ofNat n1 :: canonCase (n1 == 45) cs

/-- Go `textproto.CanonicalMIMEHeaderKey`: a key with a byte that is not a token character is
returned unchanged. -/
def CanonicalMIMEHeaderKey (s : String) : String :=
  if s.data.all (fun c => isToken c.toNat) then String.mk (canonCase true s.data) else s

/-- The map update `h[k] = append(h[k], v)` on the entries of a non-nil map. -/
def appendAt (k v : String) : List (String × List String) → List (String × List String)
  | [] => [(k, [v])]
  | (k1, vs) :: t => if k1 = k then (k1, vs ++ [v]) :: t else (k1, vs) :: appendAt k v t

/-- The map update `h[k] = []string{v}` on the entries of a non-nil map. -/
def setAt (k v : String) : List (String × List String) → List (String × List String)
  | [] => [(k, [v])]
  | (k1, vs) :: t => if k1 = k then (k1, [v]) :: t else (k1, vs) :: setAt k v t

/-- Run-time failures of `send`. -/
inductive Fault where
  /-- `http.NewRequest` returned an error and `send` called `panic(err)`. -/
  | newRequestError
  /-- Go run-time panic: assignment to entry in nil map. -/
  | nilMapWrite
  deriving DecidableEq

/-- Go `http.Header.Add`: writing to a nil map panics. -/
def Header.Add (h : GoMap (List String)) (key value : String) :
    Except Fault (GoMap (List String)) :=
  match h with
  | none => .error .nilMapWrite
  | some es => .ok (some (appendAt (CanonicalMIMEHeaderKey key) value es))

/-- Go `http.Header.Get`: the first value under the canonical key, `""` when there is none. -/
def Header.Get (h : GoMap (List String)) (key : String) : String :=
  (GoMap.index h (CanonicalMIMEHeaderKey key)).headD ""

/-- Go `http.Header.Set`: writing to a nil map panics. -/
def Header.Set (h : GoMap (List String)) (key value : String) :
    Except Fault (GoMap (List String)) :=
  match h with
  | none => .error .nilMapWrite
  | some es => .ok (some (setAt (CanonicalMIMEHeaderKey key) value es))

/-! ## The option types and the request descriptor -/

/-- Go `http.Cookie`, with the two fields `setCookies` fills in. -/
structure Cookie where
  Name : String
  Value : String
  deriving DecidableEq

/-- Modelled from the spec: the type `Data` is declared outside `request.go`; the raw-body
option is an opaque string payload, whose zero value is the empty payload. -/
abbrev Data := String

/-- Go `Request`, the descriptor built by `prepareRequest`. -/
structure Request where
  Method : String
  URL : String
  Headers : GoMap (List String)
  Data : Data
  DataForm : GoMap (List String)
  Params : GoMap (List String)
  Cookies : Option (List Cookie)
  deriving DecidableEq

/-- One element of `args ...interface{}`, by dynamic type.  The types `Headers`, `Params`,
`DataForm` and `Cookies` are declared outside `request.go`; the code ranges over them as
`map[string][]string` (the first three) and `map[string]string` (the last). -/
inductive Arg where
  | Headers (h : GoMap (List String))
  | HttpHeader (a : GoMap (List String))
  | Params (p : GoMap (List String))
  | DataForm (a : GoMap (List String))
  | Data (a : Data)
  | Cookies (c : GoMap String)
  /-- Any value whose dynamic type is none of the six cases of the type switch. -/
  | Other
  deriving DecidableEq

/-- Go `new(Request)`: every field at its zero value. -/
def Request.new : Request :=
  { Method := "", URL := "", Headers := none, Data := "", DataForm := none, Params := none,
    Cookies := none }

/-- The nested loops of `setHeader`: `Add` every value of every key to the header entries. -/
def addAll (h : List (String × List String)) (es : List (String × List String)) :
    List (String × List String) :=
  h.foldl (fun acc kv => kv.2.foldl (fun acc1 value => appendAt (CanonicalMIMEHeaderKey kv.1) value acc1)
    acc) es

/-- Go `(*Request).setHeader`. -/
def Request.setHeader (req : Request) (h : GoMap (List String)) : Request :=
  { req with Headers := some (addAll h.entries []) }

/-- Go `(*Request).setParams`. -/
def Request.setParams (req : Request) (p : GoMap (List String)) : Request :=
  { req with Params := p, URL := req.URL ++ "?" ++ Values.Encode p }

/-- Go `(*Request).setCookies`. -/
def Request.setCookies (req : Request) (c : GoMap String) : Request :=
  { req with Cookies := some (c.entries.foldl (fun acc kv => acc ++ [⟨kv.1, kv.2⟩]) []) }

/-- One iteration of the type switch in `prepareRequest`. -/
def applyArg (req : Request) : Arg → Request
  | .Headers a => req.setHeader a
  | .HttpHeader a => { req with Headers := a }
  | .Params a => req.setParams a
  | .DataForm a => { req with DataForm := a }
  | .Data a => { req with Data := a }
  | .Cookies a => req.setCookies a
  | .Other => req

/-- Go `Session.prepareRequest`. -/
def prepareRequest (method URL : String) (args : List Arg) : Request :=
  args.foldl applyArg { Request.new with Method := method, URL := URL }

/-! ## `net/http`: the wire request, `NewRequest` and `AddCookie` -/

/-- The fields of Go `http.Request` that `send` fills in before the transport call.  `URL` records
the string that `url.Parse` accepted. -/
structure WireRequest where
  Method : String
  URL : String
  Header : GoMap (List String)
  Body : Option String
  ContentLength : Int
  deriving DecidableEq

/-- Go `validMethod`: a non-empty string of token characters. -/
def validMethod (method : String) : Bool :=
  !method.data.isEmpty && method.data.all (fun c => isToken c.toNat)

/-- Go `http.NewRequest(method, url, nil)`.  The empty method stands for `GET`; an invalid method
or a URL that `url.Parse` rejects is an error.  `url.Parse` is library code that is not modelled:
`urlOK` says which strings it accepts. -/
def NewRequest (urlOK : String → Bool) (method url : String) : Except Fault WireRequest :=
  let method1 := if method = "" then "GET" else method
  if validMethod method1 && urlOK url then
    .ok { Method := method1, URL := url, Header := some [], Body := none, ContentLength := 0 }
  else .error .newRequestError

/-- Go `sanitizeCookieName`: line breaks become dashes. -/
def sanitizeCookieName (n : String) : String :=
  String.mk (n.data.map (fun c => if c.toNat = 10 ∨ c.toNat = 13 then Char.ofNat 45 else c))

/-- Go `validCookieValueByte`. -/
def validCookieValueByte (b : Nat) : Bool :=
  32 ≤ b && b < 127 && b != 34 && b != 59 && b != 92

/-- Go `sanitizeCookieValue`: invalid bytes are dropped, and a value with a space or a comma is
wrapped in double quotes. -/
def sanitizeCookieValue (v : String) : String :=
  let v1 := v.data.filter (fun c => validCookieValueByte c.toNat)
  if v1.isEmpty then String.mk v1
  else if v1.any (fun c => c.toNat == 32 || c.toNat == 44) then
    String.mk ([Char.ofNat 34] ++ v1 ++ [Char.ofNat 34])
  else String.mk v1

/-- Go `(*http.Request).AddCookie`: the cookie is appended to the single `Cookie` header line. -/
def AddCookie (r : WireRequest) (c : Cookie) : Except Fault WireRequest :=
  let s := sanitizeCookieName c.Name ++ "=" ++ sanitizeCookieValue c.Value
  let old := Header.Get r.Header "Cookie"
  match Header.Set r.Header "Cookie" (if old = "" then s else old ++ "; " ++ s) with
  | .error e => .error e
  | .ok h => .ok { r with Header := h }

/-- The loop `for _, cookie := range preq.Cookies { req.AddCookie(cookie) }`. -/
def addCookies (r : WireRequest) : List Cookie → Except Fault WireRequest
  | [] => .ok r
  | c :: cs =>
    match AddCookie r c with
    | .error e => .error e
    | .ok r1 => addCookies r1 cs

/-- The `if preq.DataForm != nil` block of `send`. -/
def attachForm (preq : Request) (req : WireRequest) : Except Fault WireRequest :=
  match preq.DataForm with
  | none => .ok req
  | some f =>
    match Header.Add req.Header "Content-Type" "application/x-www-form-urlencoded" with
    | .error e => .error e
    | .ok h =>
      let data := Values.Encode (some f)
      .ok { req with Header := h, Body := some data, ContentLength := (utf8Bytes data).length }

/-- Go `Session.send` up to the transport call `session.client.Do(req)`: the assembled wire
request, or the panic that stops the assembly. -/
def send (urlOK : String → Bool) (preq : Request) : Except Fault WireRequest :=
  match NewRequest urlOK preq.Method preq.URL with
  | .error e => .error e
  | .ok req0 =>
    match attachForm preq { req0 with Header := preq.Headers } with
    | .error e => .error e
    | .ok req1 =>
      match preq.Cookies with
      | none => .ok req1
      | some cs => addCookies req1 cs

/-! ## Classifying the options -/

/-- The descriptor field an option writes; `setParams` writes `Params` and `URL` together. -/
inductive Field where
  | headers
  | query
  | formBody
  | rawBody
  | cookies
  deriving DecidableEq

/-- The kind of a recognized option, `none` for a value the type switch ignores.  Both header
forms are the header-set kind. -/
def Arg.field : Arg → Option Field
  | .Headers _ => some .headers
  | .HttpHeader _ => some .headers
  | .Params _ => some .query
  | .DataForm _ => some .formBody
  | .Data _ => some .rawBody
  | .Cookies _ => some .cookies
  | .Other => none

/-- The query-parameter options of a call, in the order supplied. -/
def paramsOf : List Arg → List (GoMap (List String))
  | [] => []
  | .Params p :: rest => p :: paramsOf rest
  | _ :: rest => paramsOf rest

/-- The last header-set option of a call, if there is one. -/
def lastHeaderSet (args : List Arg) : Option Arg :=
  (args.filter (fun a => a.field = some .headers)).getLast?


/-! ## Lemmas on the option fold -/

theorem prepareRequest_eq (m u : String) (args : List Arg) :
    prepareRequest m u args =
      args.foldl applyArg { Request.new with Method := m, URL := u } := rfl

/-- A projection of the descriptor that every option either writes from its own payload and the
old value of the projection, or leaves alone, depends only on the options that write it. -/
theorem foldl_proj_filter {α : Type} (π : Request → α) (keep : Arg → Bool)
    (hcong : ∀ r1 r2 a, π r1 = π r2 → π (applyArg r1 a) = π (applyArg r2 a))
    (hskip : ∀ r a, keep a = false → π (applyArg r a) = π r)
    (args : List Arg) :
    ∀ r1 r2, π r1 = π r2 →
      π (args.foldl applyArg r1) = π ((args.filter keep).foldl applyArg r2) := by
  induction args with
  | nil => intro r1 r2 h; simpa using h
  | cons a rest ih =>
    intro r1 r2 h
    by_cases hk : keep a = true
    · simp only [List.foldl_cons, List.filter_cons, hk, if_true]
      exact ih _ _ (hcong r1 r2 a h)
    · have hk1 : keep a = false := by simpa using hk
      simp only [List.foldl_cons, List.filter_cons, hk1]
      exact ih _ _ ((hskip r1 a hk1).trans h)

theorem applyArg_comm (r : Request) (a b : Arg) (ha : a.field ≠ none) (hb : b.field ≠ none)
    (hab : a.field ≠ b.field) :
    applyArg (applyArg r a) b = applyArg (applyArg r b) a := by
  cases a <;> cases b <;>
    simp_all [Arg.field, applyArg, Request.setHeader, Request.setParams, Request.setCookies]

theorem foldl_url (args : List Arg) :
    ∀ r : Request, (args.foldl applyArg r).URL =
      (paramsOf args).foldl (fun acc p => acc ++ "?" ++ Values.Encode p) r.URL := by
  induction args with
  | nil => intro r; rfl
  | cons a rest ih =>
    intro r
    cases a <;> simp [paramsOf, ih, applyArg, Request.setHeader, Request.setParams,
      Request.setCookies]

theorem paramsOf_filter (args : List Arg) :
    paramsOf (args.filter (fun a => decide (a.field ≠ some Field.query))) = [] := by
  induction args with
  | nil => rfl
  | cons a rest ih =>
    cases a <;> simpa [List.filter_cons, Arg.field, paramsOf] using ih

/-! ## Properties of `prepareRequest` and `send` -/

/-- C7: `prepareRequest` is a total function, and the descriptor it returns is the one it returns
for the same option list with every value of an unrecognized kind removed. -/
theorem C7_unrecognized_options_ignored (m u : String) (args : List Arg) :
    prepareRequest m u args =
      prepareRequest m u (args.filter (fun a => a.field.isSome)) := by
  simp only [prepareRequest_eq]
  refine foldl_proj_filter id (fun a => a.field.isSome) ?_ ?_ args _ _ rfl
  · intro r1 r2 a h
    simp only [id] at h ⊢
    rw [h]
  · intro r a h
    cases a <;> simp_all [Arg.field, applyArg]

/-- C2: the URL of the descriptor is `u` followed by `"?" + encode(p)` for each query-parameter
option `p`, in the order supplied; the `hello world` example, the two-option case and the case
without query-parameter options are instances. -/
theorem C2_url_is_u_then_encoded_params :
    (∀ (m u : String) (args : List Arg),
      (prepareRequest m u args).URL =
        (paramsOf args).foldl (fun acc p => acc ++ "?" ++ Values.Encode p) u) ∧
    (∀ m : String,
      (prepareRequest m "http://example.com/search"
        [.Params (some [("q", ["hello world"])])]).URL =
          "http://example.com/search?q=hello+world") ∧
    (∀ (m u : String) (p1 p2 : GoMap (List String)),
      (prepareRequest m u [.Params p1, .Params p2]).URL =
        u ++ "?" ++ Values.Encode p1 ++ "?" ++ Values.Encode p2) ∧
    (∀ (m u : String) (args : List Arg),
      (prepareRequest m u (args.filter (fun a => decide (a.field ≠ some Field.query)))).URL = u) := by
  refine ⟨?_, ?_, ?_, ?_⟩
  · intro m u args
    rw [prepareRequest_eq, foldl_url]
  · intro m
    rfl
  · intro m u p1 p2
    rfl
  · intro m u args
    rw [prepareRequest_eq, foldl_url, paramsOf_filter]
    rfl

/-- C6 fails as a statement about every method: with the empty method `http.NewRequest`
substitutes `GET`, so the wire request does not carry the descriptor's method, and with a method
that is not a token no wire request is assembled at all. -/
theorem C6_counterexample_method_not_forwarded :
    (prepareRequest "" "http://example.com/" []).Method = "" ∧
    send (fun _ => true) (prepareRequest "" "http://example.com/" []) =
      .ok { Method := "GET", URL := "http://example.com/", Header := none, Body := none,
            ContentLength := 0 } ∧
    send (fun _ => true) (prepareRequest "G T" "http://example.com/" []) =
      .error .newRequestError := by
  refine ⟨rfl, rfl, rfl⟩

/-- C6, amended: with an empty option list the descriptor has method `m`, URL `u` and every other
field unset; when `m` is a valid method and `url.Parse` accepts `u`, the wire request `send`
assembles has method `m`, URL `u`, no header entries, no body and content length zero. -/
theorem C6_no_options (urlOK : String → Bool) (m u : String)
    (hm : validMethod m = true) (hu : urlOK u = true) :
    prepareRequest m u [] =
      { Method := m, URL := u, Headers := none, Data := "", DataForm := none, Params := none,
        Cookies := none } ∧
    send urlOK (prepareRequest m u []) =
      .ok { Method := m, URL := u, Header := none, Body := none, ContentLength := 0 } := by
  refine ⟨rfl, ?_⟩
  have hne : m ≠ "" := by
    intro h
    subst h
    simp [validMethod] at hm
  simp [send, prepareRequest, Request.new, NewRequest, attachForm, hne, hm, hu]

theorem C6_no_options_witness :
    validMethod "Get" = true ∧ (fun _ : String => true) "http://example.com/" = true ∧
    send (fun _ => true) (prepareRequest "Get" "http://example.com/" []) =
      .ok { Method := "Get", URL := "http://example.com/", Header := none, Body := none,
            ContentLength := 0 } :=
  ⟨by decide, rfl, (C6_no_options (fun _ => true) "Get" "http://example.com/" (by decide) rfl).2⟩

/-- C8: `send` never reads the raw body (nor the stored query parameters): two descriptors that
agree on method, URL, headers, form body and cookies give the same outcome, the same wire request
or the same panic. -/
theorem C8_raw_body_inert (urlOK : String → Bool) (d1 d2 : Request)
    (hMethod : d1.Method = d2.Method) (hURL : d1.URL = d2.URL)
    (hHeaders : d1.Headers = d2.Headers) (hForm : d1.DataForm = d2.DataForm)
    (hCookies : d1.Cookies = d2.Cookies) :
    send urlOK d1 = send urlOK d2 := by
  simp only [send, attachForm, hMethod, hURL, hHeaders, hForm, hCookies]

theorem C8_raw_body_inert_witness :
    send (fun _ => true)
        (prepareRequest "Post" "http://example.com/" [.Headers none, .Data "first payload",
          .DataForm (some [("name", ["Alice"])])]) =
      send (fun _ => true)
        (prepareRequest "Post" "http://example.com/" [.Headers none, .Data "second payload",
          .DataForm (some [("name", ["Alice"])])]) ∧
    (prepareRequest "Post" "http://example.com/" [.Headers none, .Data "first payload",
          .DataForm (some [("name", ["Alice"])])]).Data ≠
      (prepareRequest "Post" "http://example.com/" [.Headers none, .Data "second payload",
          .DataForm (some [("name", ["Alice"])])]).Data :=
  ⟨C8_raw_body_inert _ _ _ rfl rfl rfl rfl rfl, by decide⟩

/-- C4 fails for the query-parameter kind: each query-parameter option appends to the
URL, so the first option stays visible after the second. -/
theorem C4_counterexample_query_params :
    (prepareRequest "Get" "http://example.com"
        [.Params (some [("a", ["1"])]), .Params (some [("b", ["2"])])]).URL =
      "http://example.com?a=1?b=2" ∧
    (prepareRequest "Get" "http://example.com" [.Params (some [("b", ["2"])])]).URL =
      "http://example.com?b=2" ∧
    prepareRequest "Get" "http://example.com"
        [.Params (some [("a", ["1"])]), .Params (some [("b", ["2"])])] ≠
      prepareRequest "Get" "http://example.com" [.Params (some [("b", ["2"])])] := by
  refine ⟨rfl, rfl, by decide⟩

/-- C4, amended: for two options of the same kind other than query parameters, the call with both
returns the descriptor of the call with the second alone; for two query-parameter options every
field but the URL is that of the call with the second alone, and the URL is `u` followed by
`"?" + encode` of the first and then of the second. -/
theorem C4_same_kind_second_wins (m u : String) (a b : Arg)
    (hkind : a.field = b.field) (hrec : a.field ≠ none) :
    (a.field ≠ some Field.query → prepareRequest m u [a, b] = prepareRequest m u [b]) ∧
    (∀ p q, a = .Params p → b = .Params q →
      prepareRequest m u [a, b] =
        { prepareRequest m u [b] with
          URL := u ++ "?" ++ Values.Encode p ++ "?" ++ Values.Encode q }) := by
  constructor
  · intro hq
    cases a <;> cases b <;>
      simp_all [Arg.field, prepareRequest, applyArg, Request.setHeader, Request.setParams,
        Request.setCookies]
  · intro p q ha hb
    subst ha hb
    rfl

theorem C4_same_kind_second_wins_witness :
    (Arg.Headers (some [("X", ["a"])])).field = (Arg.HttpHeader (some [("Y", ["b"])])).field ∧
    (Arg.Headers (some [("X", ["a"])])).field ≠ none ∧
    prepareRequest "Get" "http://example.com"
        [.Headers (some [("X", ["a"])]), .HttpHeader (some [("Y", ["b"])])] =
      prepareRequest "Get" "http://example.com" [.HttpHeader (some [("Y", ["b"])])] :=
  ⟨rfl, by decide,
    (C4_same_kind_second_wins "Get" "http://example.com" (.Headers (some [("X", ["a"])]))
      (.HttpHeader (some [("Y", ["b"])])) rfl (by decide)).1 (by decide)⟩

/-- C10: swapping two adjacent recognized options that write different descriptor fields leaves
the descriptor unchanged, and each field of the descriptor is the one obtained from the options
that write that field alone (`Params` and `URL` are written together by the query-parameter
options). -/
theorem C10_options_of_different_kinds_commute (m u : String) (pre post : List Arg) (a b : Arg)
    (ha : a.field ≠ none) (hb : b.field ≠ none) (hab : a.field ≠ b.field) :
    prepareRequest m u (pre ++ a :: b :: post) = prepareRequest m u (pre ++ b :: a :: post) ∧
    (∀ args : List Arg,
      (prepareRequest m u args).Method = m ∧
      (prepareRequest m u args).Headers =
        (prepareRequest m u (args.filter (fun x => x.field = some Field.headers))).Headers ∧
      (prepareRequest m u args).URL =
        (prepareRequest m u (args.filter (fun x => x.field = some Field.query))).URL ∧
      (prepareRequest m u args).Params =
        (prepareRequest m u (args.filter (fun x => x.field = some Field.query))).Params ∧
      (prepareRequest m u args).DataForm =
        (prepareRequest m u (args.filter (fun x => x.field = some Field.formBody))).DataForm ∧
      (prepareRequest m u args).Data =
        (prepareRequest m u (args.filter (fun x => x.field = some Field.rawBody))).Data ∧
      (prepareRequest m u args).Cookies =
        (prepareRequest m u (args.filter (fun x => x.field = some Field.cookies))).Cookies) := by
  constructor
  · simp only [prepareRequest_eq, List.foldl_append, List.foldl_cons]
    rw [applyArg_comm _ a b ha hb hab]
  · intro args
    simp only [prepareRequest_eq]
    refine ⟨?_, ?_, ?_, ?_, ?_, ?_, ?_⟩
    · have h := foldl_proj_filter Request.Method (fun _ => false)
        (by intro r1 r2 x h; cases x <;>
              simp_all [applyArg, Request.setHeader, Request.setParams, Request.setCookies])
        (by intro r x _; cases x <;>
              simp [applyArg, Request.setHeader, Request.setParams, Request.setCookies])
        args _ { Request.new with Method := m, URL := u } rfl
      simpa using h
    · exact foldl_proj_filter Request.Headers _
        (by intro r1 r2 x h; cases x <;>
              simp_all [applyArg, Request.setHeader, Request.setParams, Request.setCookies])
        (by intro r x hx; cases x <;>
              simp_all [Arg.field, applyArg, Request.setHeader, Request.setParams,
                Request.setCookies])
        args _ _ rfl
    · exact foldl_proj_filter Request.URL _
        (by intro r1 r2 x h; cases x <;>
              simp_all [applyArg, Request.setHeader, Request.setParams, Request.setCookies])
        (by intro r x hx; cases x <;>
              simp_all [Arg.field, applyArg, Request.setHeader, Request.setParams,
                Request.setCookies])
        args _ _ rfl
    · exact foldl_proj_filter Request.Params _
        (by intro r1 r2 x h; cases x <;>
              simp_all [applyArg, Request.setHeader, Request.setParams, Request.setCookies])
        (by intro r x hx; cases x <;>
              simp_all [Arg.field, applyArg, Request.setHeader, Request.setParams,
                Request.setCookies])
        args _ _ rfl
    · exact foldl_proj_filter Request.DataForm _
        (by intro r1 r2 x h; cases x <;>
              simp_all [applyArg, Request.setHeader, Request.setParams, Request.setCookies])
        (by intro r x hx; cases x <;>
              simp_all [Arg.field, applyArg, Request.setHeader, Request.setParams,
                Request.setCookies])
        args _ _ rfl
    · exact foldl_proj_filter Request.Data _
        (by intro r1 r2 x h; cases x <;>
              simp_all [applyArg, Request.setHeader, Request.setParams, Request.setCookies])
        (by intro r x hx; cases x <;>
              simp_all [Arg.field, applyArg, Request.setHeader, Request.setParams,
                Request.setCookies])
        args _ _ rfl
    · exact foldl_proj_filter Request.Cookies _
        (by intro r1 r2 x h; cases x <;>
              simp_all [applyArg, Request.setHeader, Request.setParams, Request.setCookies])
        (by intro r x hx; cases x <;>
              simp_all [Arg.field, applyArg, Request.setHeader, Request.setParams,
                Request.setCookies])
        args _ _ rfl

theorem C10_options_of_different_kinds_commute_witness :
    (Arg.Params (some [("q", ["1"])])).field ≠ none ∧
    (Arg.Cookies (some [("session", "abc123")])).field ≠ none ∧
    (Arg.Params (some [("q", ["1"])])).field ≠ (Arg.Cookies (some [("session", "abc123")])).field ∧
    prepareRequest "Get" "http://example.com"
        ([.Headers none] ++ .Params (some [("q", ["1"])]) ::
          .Cookies (some [("session", "abc123")]) :: [.Data "x"]) =
      prepareRequest "Get" "http://example.com"
        ([.Headers none] ++ .Cookies (some [("session", "abc123")]) ::
          .Params (some [("q", ["1"])]) :: [.Data "x"]) :=
  ⟨by decide, by decide, by decide,
    (C10_options_of_different_kinds_commute "Get" "http://example.com" [.Headers none] [.Data "x"]
      (.Params (some [("q", ["1"])])) (.Cookies (some [("session", "abc123")]))
      (by decide) (by decide) (by decide)).1⟩

/-! ## Lemmas on header maps -/

theorem lookup_appendAt_self (k v : String) (es : List (String × List String)) :
    ((appendAt k v es).lookup k).getD [] = (es.lookup k).getD [] ++ [v] := by
  induction es with
  | nil => simp [appendAt]
  | cons e t ih =>
    obtain ⟨k1, vs⟩ := e
    by_cases h : k1 = k
    · subst h
      simp [appendAt]
    · have h1 : (k == k1) = false := by
        simpa using fun h2 : k = k1 => h h2.symm
      simp [appendAt, h, List.lookup_cons, h1, ih]

theorem lookup_appendAt_ne (k k1 v : String) (es : List (String × List String)) (h : k1 ≠ k) :
    (appendAt k v es).lookup k1 = es.lookup k1 := by
  induction es with
  | nil =>
    have h1 : (k1 == k) = false := by simpa using h
    simp [appendAt, List.lookup_cons, h1]
  | cons e t ih =>
    obtain ⟨k2, vs⟩ := e
    by_cases h2 : k2 = k
    · subst h2
      have h1 : (k1 == k2) = false := by simpa using h
      simp [appendAt, List.lookup_cons, h1]
    · by_cases h3 : (k1 == k2) = true
      · simp [appendAt, h2, List.lookup_cons, h3]
      · have h4 : (k1 == k2) = false := by simpa using h3
        simp [appendAt, h2, List.lookup_cons, h4, ih]

/-- The inner loop of `setHeader` appends the values of one key, in order, under its canonical
name. -/
theorem lookup_addValues_self (k : String) (vs : List String) :
    ∀ es : List (String × List String),
      ((vs.foldl (fun acc v => appendAt k v acc) es).lookup k).getD [] =
        (es.lookup k).getD [] ++ vs := by
  induction vs with
  | nil => intro es; simp
  | cons v t ih =>
    intro es
    simp only [List.foldl_cons]
    rw [ih, lookup_appendAt_self]
    simp

theorem lookup_addValues_ne (k k1 : String) (h : k1 ≠ k) (vs : List String) :
    ∀ es : List (String × List String),
      (vs.foldl (fun acc v => appendAt k v acc) es).lookup k1 = es.lookup k1 := by
  induction vs with
  | nil => intro es; rfl
  | cons v t ih =>
    intro es
    simp only [List.foldl_cons]
    rw [ih, lookup_appendAt_ne _ _ _ _ h]

theorem addAll_cons (kv : String × List String) (t es : List (String × List String)) :
    addAll (kv :: t) es =
      addAll t (kv.2.foldl (fun acc v => appendAt (CanonicalMIMEHeaderKey kv.1) v acc) es) := rfl

/-- Values already stored under a name stay in front of whatever `setHeader` adds later. -/
theorem lookup_addAll_extends (k1 : String) (h : List (String × List String)) :
    ∀ es : List (String × List String),
      ∃ post, ((addAll h es).lookup k1).getD [] = (es.lookup k1).getD [] ++ post := by
  induction h with
  | nil => intro es; exact ⟨[], by simp [addAll]⟩
  | cons kv t ih =>
    intro es
    rw [addAll_cons]
    obtain ⟨post, hpost⟩ := ih (kv.2.foldl
      (fun acc v => appendAt (CanonicalMIMEHeaderKey kv.1) v acc) es)
    by_cases hk : k1 = CanonicalMIMEHeaderKey kv.1
    · subst hk
      rw [hpost, lookup_addValues_self]
      exact ⟨kv.2 ++ post, by simp⟩
    · rw [hpost, lookup_addValues_ne _ _ hk]
      exact ⟨post, rfl⟩

/-- Every entry of the header-set option shows up, values in order and contiguous, under the
canonical form of its name. -/
theorem lookup_addAll_of_mem (k : String) (vs : List String) (h : List (String × List String)) :
    ∀ es : List (String × List String), (k, vs) ∈ h →
      ∃ pre post,
        ((addAll h es).lookup (CanonicalMIMEHeaderKey k)).getD [] = pre ++ vs ++ post := by
  induction h with
  | nil => intro es hmem; simp at hmem
  | cons kv t ih =>
    intro es hmem
    rw [addAll_cons]
    rcases List.mem_cons.mp hmem with heq | htail
    · subst heq
      obtain ⟨post, hpost⟩ := lookup_addAll_extends (CanonicalMIMEHeaderKey k) t
        (vs.foldl (fun acc v => appendAt (CanonicalMIMEHeaderKey k) v acc) es)
      refine ⟨(es.lookup (CanonicalMIMEHeaderKey k)).getD [], post, ?_⟩
      rw [hpost, lookup_addValues_self]
    · exact ih _ htail

/-- The headers of the descriptor are those written by the last header-set option. -/
theorem headers_of_lastHeaderSet (args : List Arg) (L : Arg) (hL : lastHeaderSet args = some L)
    (r r0 : Request) :
    (args.foldl applyArg r).Headers = (applyArg r0 L).Headers := by
  have hfilter := foldl_proj_filter Request.Headers (fun x => decide (x.field = some Field.headers))
    (by intro r1 r2 x h; cases x <;>
          simp_all [applyArg, Request.setHeader, Request.setParams, Request.setCookies])
    (by intro r x hx; cases x <;>
          simp_all [Arg.field, applyArg, Request.setHeader, Request.setParams,
            Request.setCookies])
    args r r rfl
  rw [hfilter]
  have hmem : L ∈ args.filter (fun x => decide (x.field = some Field.headers)) :=
    List.mem_of_getLast?_eq_some hL
  obtain ⟨ys, hys⟩ := List.getLast?_eq_some_iff.mp hL
  rw [hys, List.foldl_append]
  have hfield : L.field = some Field.headers := by
    simpa using (List.mem_filter.mp hmem).2
  cases L <;> simp_all [Arg.field, applyArg, Request.setHeader]

/-- The values `setHeader` stores under a name are the values of the entries whose canonical name
it is, in the order `range` visits the entries, after whatever was stored before. -/
theorem lookup_addAll (k1 : String) (h : List (String × List String)) :
    ∀ es : List (String × List String),
      ((addAll h es).lookup k1).getD [] =
        (es.lookup k1).getD [] ++
          (h.filter (fun kv => decide (CanonicalMIMEHeaderKey kv.1 = k1))).flatMap Prod.snd := by
  induction h with
  | nil => intro es; simp [addAll]
  | cons kv t ih =>
    intro es
    rw [addAll_cons, ih]
    by_cases hk : CanonicalMIMEHeaderKey kv.1 = k1
    · subst hk
      rw [lookup_addValues_self]
      simp [List.filter_cons]
    · have hk1 : k1 ≠ CanonicalMIMEHeaderKey kv.1 := fun h1 => hk h1.symm
      rw [lookup_addValues_ne _ _ hk1]
      simp [List.filter_cons, hk]

/-- C3 fails for the `Headers` form with a name that is not in canonical form: `setHeader`
stores the values through `http.Header.Add`, which files them under the canonical form of the
name, so the descriptor holds nothing under the name `x-token` itself. -/
theorem C3_counterexample_name_canonicalized :
    lastHeaderSet [Arg.Headers (some [("x-token", ["a", "b"])])] =
      some (Arg.Headers (some [("x-token", ["a", "b"])])) ∧
    (prepareRequest "Get" "http://example.com"
        [.Headers (some [("x-token", ["a", "b"])])]).Headers =
      some [("X-Token", ["a", "b"])] ∧
    GoMap.index (prepareRequest "Get" "http://example.com"
        [.Headers (some [("x-token", ["a", "b"])])]).Headers "x-token" = [] := by
  refine ⟨rfl, rfl, rfl⟩

/-- C3, amended: when the option list has a header-set option, the headers of the descriptor are
those of a call with the last header-set option `L` alone, so nothing of an earlier header-set
option remains.  If `L` is an `http.Header` the headers are that very map.  If `L` is a `Headers`
value, the values held under a name are exactly the values of the entries of `L` whose canonical
MIME form is that name, in the order the entries are visited; so every entry of `L` has all its
values, in their original order, under the canonical form of its name, and the option that maps
`X` to `a`, `b` gives both `a` and `b` under `X`. -/
theorem C3_last_header_set_wins (m u : String) (args : List Arg) (L : Arg)
    (hL : lastHeaderSet args = some L) :
    (prepareRequest m u args).Headers = (prepareRequest m u [L]).Headers ∧
    (∀ a, L = .HttpHeader a → (prepareRequest m u args).Headers = a) ∧
    (∀ h, L = .Headers h →
      (prepareRequest m u args).Headers ≠ none ∧
      (∀ k1 : String, GoMap.index (prepareRequest m u args).Headers k1 =
        (h.entries.filter (fun kv => decide (CanonicalMIMEHeaderKey kv.1 = k1))).flatMap
          Prod.snd) ∧
      (∀ k vs, (k, vs) ∈ h.entries → ∃ pre post,
        GoMap.index (prepareRequest m u args).Headers (CanonicalMIMEHeaderKey k) =
          pre ++ vs ++ post)) ∧
    (∀ pre : List Arg,
      GoMap.index (prepareRequest m u (pre ++ [.Headers (some [("X", ["a", "b"])])])).Headers "X" =
        ["a", "b"]) := by
  have hH := headers_of_lastHeaderSet args L hL
    { Request.new with Method := m, URL := u } { Request.new with Method := m, URL := u }
  rw [← prepareRequest_eq] at hH
  refine ⟨hH, ?_, ?_, ?_⟩
  · intro a ha
    subst ha
    rw [hH]
    rfl
  · intro h hh
    subst hh
    rw [hH]
    refine ⟨by simp [applyArg, Request.setHeader], ?_, ?_⟩
    · intro k1
      simp only [applyArg, Request.setHeader, GoMap.index, GoMap.entries, Option.getD_some]
      rw [lookup_addAll]
      simp
    · intro k vs hmem
      simp only [applyArg, Request.setHeader, GoMap.index, GoMap.entries, Option.getD_some]
      exact lookup_addAll_of_mem k vs _ [] hmem
  · intro pre
    have hlast : lastHeaderSet (pre ++ [Arg.Headers (some [("X", ["a", "b"])])]) =
        some (Arg.Headers (some [("X", ["a", "b"])])) := by
      simp [lastHeaderSet, List.filter_append, Arg.field]
    have h1 := headers_of_lastHeaderSet _ _ hlast
      { Request.new with Method := m, URL := u } { Request.new with Method := m, URL := u }
    rw [← prepareRequest_eq] at h1
    rw [h1]
    rfl

theorem C3_last_header_set_wins_witness :
    lastHeaderSet [Arg.HttpHeader (some [("Y", ["old"])]), Arg.Params none,
        Arg.Headers (some [("x-token", ["a", "b"])])] =
      some (Arg.Headers (some [("x-token", ["a", "b"])])) ∧
    (prepareRequest "Get" "http://example.com" [Arg.HttpHeader (some [("Y", ["old"])]),
        Arg.Params none, Arg.Headers (some [("x-token", ["a", "b"])])]).Headers =
      (prepareRequest "Get" "http://example.com"
        [Arg.Headers (some [("x-token", ["a", "b"])])]).Headers :=
  ⟨rfl, (C3_last_header_set_wins "Get" "http://example.com" [Arg.HttpHeader (some [("Y", ["old"])]),
        Arg.Params none, Arg.Headers (some [("x-token", ["a", "b"])])]
      (Arg.Headers (some [("x-token", ["a", "b"])])) rfl).1⟩

/-! ## Lemmas on `send` -/

/-- With a non-nil header map every cookie can be attached, and the header map stays non-nil. -/
theorem addCookies_ok (cs : List Cookie) :
    ∀ r : WireRequest, r.Header ≠ none → ∃ w, addCookies r cs = .ok w ∧ w.Header ≠ none := by
  induction cs with
  | nil => intro r hr; exact ⟨r, rfl, hr⟩
  | cons c t ih =>
    intro r hr
    obtain ⟨es, hes⟩ := Option.ne_none_iff_exists'.mp hr
    have hstep : ∃ r1, AddCookie r c = .ok r1 ∧ r1.Header ≠ none := by
      simp [AddCookie, Header.Set, hes]
    obtain ⟨r1, h1, h2⟩ := hstep
    obtain ⟨w, hw1, hw2⟩ := ih r1 h2
    exact ⟨w, by simp [addCookies, h1, hw1], hw2⟩

/-- Once `http.NewRequest` has accepted the method and the URL, `send` either assembles a wire
request or stops on a write to the nil header map, and it stops exactly when the headers of the
descriptor are nil while there is a form body or at least one cookie to attach. -/
theorem send_outcome (urlOK : String → Bool) (d : Request) (req0 : WireRequest)
    (h0 : NewRequest urlOK d.Method d.URL = .ok req0) :
    (send urlOK d = .error .nilMapWrite ↔
      d.Headers = none ∧ (d.DataForm ≠ none ∨ ∃ c cs, d.Cookies = some (c :: cs))) ∧
    ((∃ w, send urlOK d = .ok w) ↔
      ¬ (d.Headers = none ∧ (d.DataForm ≠ none ∨ ∃ c cs, d.Cookies = some (c :: cs)))) := by
  cases hH : d.Headers with
  | none =>
    cases hF : d.DataForm with
    | some f => simp [send, h0, attachForm, Header.Add, hH, hF]
    | none =>
      cases hC : d.Cookies with
      | none => simp [send, h0, attachForm, hH, hF, hC]
      | some cs =>
        cases cs with
        | nil => simp [send, h0, attachForm, hH, hF, hC, addCookies]
        | cons c t =>
          simp [send, h0, attachForm, hH, hF, hC, addCookies, AddCookie, Header.Set]
  | some es =>
    have hform : ∃ r1, attachForm d { req0 with Header := some es } = .ok r1 ∧
        r1.Header ≠ none := by
      cases hF : d.DataForm <;> simp [attachForm, Header.Add, hF]
    obtain ⟨r1, hr1, hr1h⟩ := hform
    have hok : ∃ w, send urlOK d = .ok w := by
      cases hC : d.Cookies with
      | none => exact ⟨r1, by simp [send, h0, hH, hr1, hC]⟩
      | some cs =>
        obtain ⟨w, hw, _⟩ := addCookies_ok cs r1 hr1h
        exact ⟨w, by simp [send, h0, hH, hr1, hC, hw]⟩
    obtain ⟨w, hw⟩ := hok
    simp [hw]

theorem lookup_setAt_ne (k k1 v : String) (es : List (String × List String)) (h : k1 ≠ k) :
    (setAt k v es).lookup k1 = es.lookup k1 := by
  induction es with
  | nil =>
    have h1 : (k1 == k) = false := by simpa using h
    simp [setAt, List.lookup_cons, h1]
  | cons e t ih =>
    obtain ⟨k2, vs⟩ := e
    by_cases h2 : k2 = k
    · subst h2
      have h1 : (k1 == k2) = false := by simpa using h
      simp [setAt, List.lookup_cons, h1]
    · by_cases h3 : (k1 == k2) = true
      · simp [setAt, h2, List.lookup_cons, h3]
      · have h4 : (k1 == k2) = false := by simpa using h3
        simp [setAt, h2, List.lookup_cons, h4, ih]

/-- Attaching cookies leaves the body, the content length and the `Content-Type` values alone. -/
theorem addCookies_preserves (cs : List Cookie) :
    ∀ r w : WireRequest, addCookies r cs = .ok w →
      w.Method = r.Method ∧ w.URL = r.URL ∧ w.Body = r.Body ∧
      w.ContentLength = r.ContentLength ∧
      GoMap.index w.Header "Content-Type" = GoMap.index r.Header "Content-Type" := by
  induction cs with
  | nil =>
    intro r w h
    simp only [addCookies, Except.ok.injEq] at h
    subst h
    exact ⟨rfl, rfl, rfl, rfl, rfl⟩
  | cons c t ih =>
    intro r w h
    cases hH : r.Header with
    | none => simp [addCookies, AddCookie, Header.Set, hH] at h
    | some es =>
      have hkey : ("Content-Type" : String) ≠ CanonicalMIMEHeaderKey "Cookie" := by decide
      simp only [addCookies, AddCookie, Header.Set, hH] at h
      obtain ⟨h1, h2, h3, h4, h5⟩ := ih _ w h
      refine ⟨h1, h2, h3, h4, ?_⟩
      rw [h5]
      simp only [GoMap.index, GoMap.entries, Option.getD_some]
      rw [lookup_setAt_ne _ _ _ _ hkey]

/-- The path on which `send` does what its comments say: when the descriptor has a non-nil header
map and a form body, and `http.NewRequest` accepts the method and the URL, the wire request has
the form content type among its `Content-Type` values, the encoded form as its body and the byte
length of that body as its content length. -/
theorem send_form_body_of_headers (urlOK : String → Bool) (d : Request) (req0 : WireRequest)
    (h0 : NewRequest urlOK d.Method d.URL = .ok req0)
    (es f : List (String × List String)) (hH : d.Headers = some es) (hF : d.DataForm = some f) :
    ∃ w, send urlOK d = .ok w ∧
      "application/x-www-form-urlencoded" ∈ GoMap.index w.Header "Content-Type" ∧
      w.Body = some (Values.Encode (some f)) ∧
      w.ContentLength = (utf8Bytes (Values.Encode (some f))).length := by
  have hkey : CanonicalMIMEHeaderKey "Content-Type" = "Content-Type" := by decide
  have hidx : "application/x-www-form-urlencoded" ∈
      GoMap.index (some (appendAt "Content-Type" "application/x-www-form-urlencoded" es))
        "Content-Type" := by
    simp only [GoMap.index, GoMap.entries, Option.getD_some]
    rw [lookup_appendAt_self]
    simp
  cases hC : d.Cookies with
  | none =>
    refine ⟨_, by simp [send, h0, attachForm, Header.Add, hH, hF, hC]; rfl, ?_, rfl, rfl⟩
    rw [hkey]
    exact hidx
  | some cs =>
    obtain ⟨w, hw, _⟩ := addCookies_ok cs
      { req0 with
        Header := some (appendAt "Content-Type" "application/x-www-form-urlencoded" es),
        Body := some (Values.Encode (some f)),
        ContentLength := (utf8Bytes (Values.Encode (some f))).length } (by simp)
    obtain ⟨_, _, h3, h4, h5⟩ := addCookies_preserves cs _ w hw
    refine ⟨w, by simp [send, h0, attachForm, Header.Add, hH, hF, hC, hkey, hw], ?_, h3, h4⟩
    rw [h5]
    exact hidx

theorem foldl_append_singleton {α β : Type} (f : α → β) (l : List α) :
    ∀ init : List β, l.foldl (fun acc x => acc ++ [f x]) init = init ++ l.map f := by
  induction l with
  | nil => intro init; simp
  | cons x t ih => intro init; simp [ih]

/-- C9 fails in its last clause: a non-nil header-set option followed by a nil
`http.Header` leaves the descriptor's headers nil, and attaching the cookie panics. -/
theorem C9_counterexample_nil_header_after_non_nil :
    NewRequest (fun _ => true) "Get" "http://example.com/" =
      .ok { Method := "Get", URL := "http://example.com/", Header := some [], Body := none,
            ContentLength := 0 } ∧
    (prepareRequest "Get" "http://example.com/"
      [.HttpHeader (some [("A", ["b"])]), .HttpHeader none,
        .Cookies (some [("s", "v")])]).Headers = none ∧
    send (fun _ => true) (prepareRequest "Get" "http://example.com/"
      [.HttpHeader (some [("A", ["b"])]), .HttpHeader none, .Cookies (some [("s", "v")])]) =
      .error .nilMapWrite := by
  refine ⟨rfl, rfl, rfl⟩

/-- C9, amended: for a descriptor `d` returned by `prepareRequest` whose method and URL
`http.NewRequest` accepts, the assembly in `send` panics if and only if the headers of `d` are nil
and either the form body of `d` is non-nil or `d` has at least one cookie, and otherwise yields a
wire request; in particular it yields one whenever the last header-set option supplied is a
`Headers` value or an `http.Header` with a non-nil mapping. -/
theorem C9_assembly_faults_iff (urlOK : String → Bool) (m u : String) (args : List Arg)
    (hacc : ∃ req0, NewRequest urlOK (prepareRequest m u args).Method
      (prepareRequest m u args).URL = .ok req0) :
    (send urlOK (prepareRequest m u args) = .error .nilMapWrite ↔
      (prepareRequest m u args).Headers = none ∧
        ((prepareRequest m u args).DataForm ≠ none ∨
          ∃ c cs, (prepareRequest m u args).Cookies = some (c :: cs))) ∧
    ((∃ w, send urlOK (prepareRequest m u args) = .ok w) ↔
      ¬ ((prepareRequest m u args).Headers = none ∧
        ((prepareRequest m u args).DataForm ≠ none ∨
          ∃ c cs, (prepareRequest m u args).Cookies = some (c :: cs)))) ∧
    (∀ L, lastHeaderSet args = some L → L ≠ .HttpHeader none →
      ∃ w, send urlOK (prepareRequest m u args) = .ok w) := by
  obtain ⟨req0, h0⟩ := hacc
  obtain ⟨h1, h2⟩ := send_outcome urlOK (prepareRequest m u args) req0 h0
  refine ⟨h1, h2, ?_⟩
  intro L hL hne
  apply h2.mpr
  intro hbad
  have hH := headers_of_lastHeaderSet args L hL
    { Request.new with Method := m, URL := u } { Request.new with Method := m, URL := u }
  rw [← prepareRequest_eq] at hH
  have hfield : L.field = some Field.headers := by
    simpa using (List.mem_filter.mp (List.mem_of_getLast?_eq_some hL)).2
  rw [hH] at hbad
  cases L <;> simp_all [Arg.field, applyArg, Request.setHeader]

theorem C9_assembly_faults_iff_witness :
    (∃ req0, NewRequest (fun _ => true)
      (prepareRequest "Post" "http://example.com/" [.DataForm (some [("name", ["Alice"])])]).Method
      (prepareRequest "Post" "http://example.com/" [.DataForm (some [("name", ["Alice"])])]).URL =
        .ok req0) ∧
    (send (fun _ => true)
        (prepareRequest "Post" "http://example.com/" [.DataForm (some [("name", ["Alice"])])]) =
          .error .nilMapWrite ↔
      (prepareRequest "Post" "http://example.com/"
          [.DataForm (some [("name", ["Alice"])])]).Headers = none ∧
        ((prepareRequest "Post" "http://example.com/"
            [.DataForm (some [("name", ["Alice"])])]).DataForm ≠ none ∨
          ∃ c cs, (prepareRequest "Post" "http://example.com/"
            [.DataForm (some [("name", ["Alice"])])]).Cookies = some (c :: cs))) :=
  ⟨⟨_, rfl⟩, (C9_assembly_faults_iff (fun _ => true) "Post" "http://example.com/"
    [.DataForm (some [("name", ["Alice"])])] ⟨_, rfl⟩).1⟩

/-- C1: a call whose only option is a form body leaves the descriptor's headers nil; `send` then
assigns that nil map to the wire request and adding the `Content-Type` line panics, so for any
method, URL and form no wire request is assembled, and none carries the form content type, the
encoded body or its length. -/
theorem C1_form_body_alone_panics :
    (∀ (urlOK : String → Bool) (m u : String) (f : List (String × List String))
        (w : WireRequest),
      send urlOK (prepareRequest m u [.DataForm (some f)]) ≠ .ok w) ∧
    send (fun _ => true) (prepareRequest "Post" "http://example.com/"
      [.DataForm (some [("name", ["Alice"]), ("age", ["30"])])]) = .error .nilMapWrite := by
  refine ⟨?_, rfl⟩
  intro urlOK m u f w
  cases h0 : NewRequest urlOK m u <;>
    simp [send, prepareRequest, Request.new, applyArg, attachForm, Header.Add, h0]

/-- C5: the descriptor holds one cookie per entry of the cookie-set option, in the order the
entries are visited, and nothing else; but a call whose only option is a non-empty cookie set
leaves the headers nil, and `AddCookie` panics on the first cookie, so no wire request is
assembled and none includes the cookie `session=abc123`. -/
theorem C5_cookies_alone_panic :
    (∀ (m u : String) (c : GoMap String),
      (prepareRequest m u [.Cookies c]).Cookies =
        some (c.entries.map (fun kv => { Name := kv.1, Value := kv.2 }))) ∧
    (∀ (urlOK : String → Bool) (m u : String) (kv : String × String)
        (rest : List (String × String)) (w : WireRequest),
      send urlOK (prepareRequest m u [.Cookies (some (kv :: rest))]) ≠ .ok w) ∧
    (prepareRequest "Get" "http://example.com/"
      [.Cookies (some [("session", "abc123")])]).Cookies =
        some [{ Name := "session", Value := "abc123" }] ∧
    send (fun _ => true) (prepareRequest "Get" "http://example.com/"
      [.Cookies (some [("session", "abc123")])]) = .error .nilMapWrite := by
  refine ⟨?_, ?_, rfl, rfl⟩
  · intro m u c
    simp [prepareRequest, applyArg, Request.setCookies, foldl_append_singleton]
  · intro urlOK m u kv rest w
    cases h0 : NewRequest urlOK m u <;>
      simp [send, prepareRequest, Request.new, applyArg, Request.setCookies, attachForm, h0,
        foldl_append_singleton, GoMap.entries, addCookies, AddCookie, Header.Set]

/-- With a header-set option in the call, the cookie of the example reaches the wire request as
the `Cookie` header line `session=abc123`. -/
theorem send_cookie_with_headers_example :
    send (fun _ => true) (prepareRequest "Get" "http://example.com/"
      [.Headers none, .Cookies (some [("session", "abc123")])]) =
      .ok { Method := "Get", URL := "http://example.com/",
            Header := some [("Cookie", ["session=abc123"])], Body := none,
            ContentLength := 0 } := rfl

end Direwolf
